import Mathlib

/-!
Verification of the reminder-bot event persistence and timer-scheduling
subsystem (`src/bot.py`).

The development shallowly embeds the Python source:

* naive `datetime` values are a seven-field structure; calendar arithmetic
  (ordinals, `datetime ± timedelta`, `date` subtraction) follows CPython's
  `datetime` module (`_ymd2ord` / `_ord2ymd`); comparisons are modelled on
  the proleptic-Gregorian day-count timeline, which coincides with CPython's
  field-lexicographic comparison on every in-range datetime;
* `timedelta` is an integer number of microseconds;
* the job queue is a list of named jobs; `remove_existing_jobs` filters by
  name, `run_once` / `run_repeating` append;
* the JSON store is an association list from owner-id strings to event
  lists (Python dicts preserve insertion order);
* fallible operations (`datetime.fromisoformat`, `json.load`, recovery)
  return `Option` / `Except`.
-/

/-! ### Gregorian calendar arithmetic (CPython `datetime` internals) -/

/-- CPython `_is_leap`: a proleptic-Gregorian leap year. -/
def isLeap (y : Nat) : Bool :=
  y % 4 = 0 && (y % 100 != 0 || y % 400 = 0)

/-- CPython `_DAYS_IN_MONTH[m]` (February in a non-leap year). -/
def daysInMonthTbl (m : Nat) : Nat :=
  [31, 28, 31, 30, 31, 30, 31, 31, 30, 31, 30, 31].getD (m - 1) 0

/-- CPython `_days_in_month(year, month)`. -/
def daysInMonth (y m : Nat) : Nat :=
  if m = 2 && isLeap y then 29 else daysInMonthTbl m

/-- CPython `_DAYS_BEFORE_MONTH[m]`: days in a non-leap year strictly before
month `m`. -/
def daysBeforeMonthTbl (m : Nat) : Nat :=
  [0, 31, 59, 90, 120, 151, 181, 212, 243, 273, 304, 334].getD (m - 1) 0

/-- CPython `_days_before_month(year, month)`. -/
def daysBeforeMonth (y m : Nat) : Nat :=
  daysBeforeMonthTbl m + (if 2 < m && isLeap y then 1 else 0)

/-- CPython `_days_before_year(year)`: days before January 1st of `year`. -/
def daysBeforeYear (y : Nat) : Nat :=
  (y - 1) * 365 + (y - 1) / 4 - (y - 1) / 100 + (y - 1) / 400

/-- CPython `_ymd2ord`: proleptic-Gregorian ordinal of a date
(0001-01-01 is ordinal 1); `date.toordinal()`. -/
def ymd2ord (y m d : Nat) : Nat :=
  daysBeforeYear y + daysBeforeMonth y m + d

/-- A Python `datetime.date` value. -/
structure PyDate where
  year : Nat
  month : Nat
  day : Nat
  deriving DecidableEq, Repr

/-- A Python `datetime.time` value. -/
structure PyTime where
  hour : Nat
  minute : Nat
  second : Nat
  microsecond : Nat
  deriving DecidableEq, Repr

/-- CPython `_ord2ymd`: date of a proleptic-Gregorian ordinal (inverse of
`ymd2ord` on ordinals of valid dates; total here, junk below ordinal 1). -/
def ord2ymd (n0 : Nat) : PyDate :=
  let n := n0 - 1
  let n400 := n / 146097
  let n := n % 146097
  let year := n400 * 400 + 1
  let n100 := n / 36524
  let n := n % 36524
  let n4 := n / 1461
  let n := n % 1461
  let n1 := n / 365
  let n := n % 365
  let year := year + n100 * 100 + n4 * 4 + n1
  if n1 = 4 || n100 = 4 then
    ⟨year - 1, 12, 31⟩
  else
    let leap := n1 = 3 && (n4 != 24 || n100 = 3)
    let month := (n + 50) / 32
    let preceding := daysBeforeMonthTbl month + (if 2 < month && leap then 1 else 0)
    if n < preceding then
      let month' := month - 1
      let preceding' := preceding - (daysInMonthTbl month' + (if month' = 2 && leap then 1 else 0))
      ⟨year, month', n - preceding' + 1⟩
    else
      ⟨year, month, n - preceding + 1⟩

/-! ### Naive datetimes and timedeltas -/

/-- A naive Python `datetime.datetime` value (the bot stores no timezone). -/
structure DateTime where
  year : Nat
  month : Nat
  day : Nat
  hour : Nat
  minute : Nat
  second : Nat
  microsecond : Nat
  deriving DecidableEq, Repr

/-- A Python `datetime.timedelta`, normalised to microseconds. -/
structure Timedelta where
  us : Int
  deriving DecidableEq, Repr

/-- Microseconds per day. -/
def usPerDay : Int := 86400000000

/-- `datetime.date()`. -/
def DateTime.date (d : DateTime) : PyDate := ⟨d.year, d.month, d.day⟩

/-- Microseconds elapsed since midnight of the datetime's own day. -/
def DateTime.todUs (d : DateTime) : Nat :=
  ((d.hour * 60 + d.minute) * 60 + d.second) * 1000000 + d.microsecond

/-- Position of a datetime on the microsecond timeline whose origin is
midnight of ordinal day 0 (CPython compares, subtracts and offsets naive
datetimes by exactly this quantity via `toordinal`). -/
def DateTime.toOrdMicro (d : DateTime) : Int :=
  (ymd2ord d.year d.month d.day : Int) * usPerDay + (d.todUs : Int)

/-- Inverse of `toOrdMicro`: rebuild a datetime from a timeline position
(CPython materialises `datetime ± timedelta` results this way, through
`fromordinal`). -/
def fromOrdMicro (t : Int) : DateTime :=
  let days := (t.ediv usPerDay).toNat
  let tod := (t.emod usPerDay).toNat
  let p := ord2ymd days
  { year := p.year, month := p.month, day := p.day
    hour := tod / 3600000000
    minute := tod % 3600000000 / 60000000
    second := tod % 60000000 / 1000000
    microsecond := tod % 1000000 }

/-- Python `a <= b` on naive datetimes (timeline order; agrees with
CPython's field-lexicographic comparison on all in-range datetimes). -/
def dtLe (a b : DateTime) : Prop := a.toOrdMicro ≤ b.toOrdMicro

/-- Python `a < b` on naive datetimes. -/
def dtLt (a b : DateTime) : Prop := a.toOrdMicro < b.toOrdMicro

instance (a b : DateTime) : Decidable (dtLe a b) :=
  inferInstanceAs (Decidable (a.toOrdMicro ≤ b.toOrdMicro))

instance (a b : DateTime) : Decidable (dtLt a b) :=
  inferInstanceAs (Decidable (a.toOrdMicro < b.toOrdMicro))

/-- Python `datetime - datetime`, a `timedelta`. -/
def dtSub (a b : DateTime) : Timedelta := ⟨a.toOrdMicro - b.toOrdMicro⟩

/-- Python `datetime + timedelta`. -/
def dtAddTd (d : DateTime) (t : Timedelta) : DateTime :=
  fromOrdMicro (d.toOrdMicro + t.us)

/-- Python `datetime - timedelta`. -/
def dtSubTd (d : DateTime) (t : Timedelta) : DateTime :=
  fromOrdMicro (d.toOrdMicro - t.us)

/-- Python `datetime.combine(date, time)`. -/
def combineDT (p : PyDate) (t : PyTime) : DateTime :=
  ⟨p.year, p.month, p.day, t.hour, t.minute, t.second, t.microsecond⟩

/-- Python `int(timedelta.total_seconds())` (truncation toward zero). -/
def tdIntSeconds (t : Timedelta) : Int := t.us.tdiv 1000000

/-- Fields of an in-range (constructible) CPython datetime. -/
def validDT (d : DateTime) : Prop :=
  1 ≤ d.year ∧ d.year ≤ 9999 ∧ 1 ≤ d.month ∧ d.month ≤ 12 ∧
  1 ≤ d.day ∧ d.day ≤ daysInMonth d.year d.month ∧
  d.hour ≤ 23 ∧ d.minute ≤ 59 ∧ d.second ≤ 59 ∧ d.microsecond ≤ 999999

instance (d : DateTime) : Decidable (validDT d) := by
  unfold validDT; infer_instance

/-! ### ISO-8601 serialization (`datetime.isoformat` / `fromisoformat`) -/

/-- Decimal digit character. -/
def digitChar (n : Nat) : Char := Char.ofNat (48 + n)

/-- Two zero-padded decimal digits (`%02d`, fields below 100). -/
def pad2 (n : Nat) : List Char := [digitChar (n / 10), digitChar (n % 10)]

/-- Four zero-padded decimal digits (`%04d`, fields below 10000). -/
def pad4 (n : Nat) : List Char :=
  [digitChar (n / 1000), digitChar (n / 100 % 10), digitChar (n / 10 % 10), digitChar (n % 10)]

/-- Six zero-padded decimal digits (`%06d`, fields below 1000000). -/
def pad6 (n : Nat) : List Char :=
  [digitChar (n / 100000), digitChar (n / 10000 % 10), digitChar (n / 1000 % 10),
   digitChar (n / 100 % 10), digitChar (n / 10 % 10), digitChar (n % 10)]

/-- `datetime.isoformat()` of a naive datetime, as characters:
`YYYY-MM-DDTHH:MM:SS` with `.ffffff` appended exactly when the microsecond
field is nonzero (CPython `timespec=auto`). -/
def isoformatChars (d : DateTime) : List Char :=
  pad4 d.year ++ '-' :: (pad2 d.month ++ '-' :: (pad2 d.day ++ 'T' ::
    (pad2 d.hour ++ ':' :: (pad2 d.minute ++ ':' ::
      (pad2 d.second ++ (if d.microsecond = 0 then [] else '.' :: pad6 d.microsecond))))))

/-- Numeric value of a decimal digit character. -/
def parseDigit (c : Char) : Option Nat :=
  if '0' ≤ c ∧ c ≤ '9' then some (c.toNat - 48) else none

/-- Read exactly two decimal digits. -/
def parse2 : List Char → Option (Nat × List Char)
  | a :: b :: rest =>
    match parseDigit a, parseDigit b with
    | some x, some y => some (10 * x + y, rest)
    | _, _ => none
  | _ => none

/-- Read exactly four decimal digits. -/
def parse4 : List Char → Option (Nat × List Char)
  | a :: b :: c :: d :: rest =>
    match parseDigit a, parseDigit b, parseDigit c, parseDigit d with
    | some x, some y, some z, some w => some (1000 * x + 100 * y + 10 * z + w, rest)
    | _, _, _, _ => none
  | _ => none

/-- Read exactly six decimal digits. -/
def parse6 : List Char → Option (Nat × List Char)
  | a :: b :: c :: d :: e :: f :: rest =>
    match parseDigit a, parseDigit b, parseDigit c, parseDigit d,
          parseDigit e, parseDigit f with
    | some x, some y, some z, some w, some v, some u =>
      some (100000 * x + 10000 * y + 1000 * z + 100 * w + 10 * v + u, rest)
    | _, _, _, _, _, _ => none
  | _ => none

/-- Range-validate parsed fields exactly as the CPython `datetime`
constructor does, or fail. -/
def mkValidDT (y mo d h mi s us : Nat) : Option DateTime :=
  let dt : DateTime := ⟨y, mo, d, h, mi, s, us⟩
  if validDT dt then some dt else none

/-- Parse the `YYYY-MM-DD` prefix of an ISO string, returning the rest. -/
def parseDateChars (cs : List Char) : Option (Nat × Nat × Nat × List Char) :=
  match parse4 cs with
  | some (y, c1 :: cs) =>
    if c1 = '-' then
      match parse2 cs with
      | some (mo, c2 :: cs) =>
        if c2 = '-' then
          match parse2 cs with
          | some (d, cs) => some (y, mo, d, cs)
          | none => none
        else none
      | _ => none
    else none
  | _ => none

/-- Parse an ISO time-of-day `HH:MM[:SS[.ffffff]]` occupying the whole
input. -/
def parseTimeChars (cs : List Char) : Option (Nat × Nat × Nat × Nat) :=
  match parse2 cs with
  | some (h, c1 :: cs) =>
    if c1 = ':' then
      match parse2 cs with
      | some (mi, []) => some (h, mi, 0, 0)
      | some (mi, c2 :: cs) =>
        if c2 = ':' then
          match parse2 cs with
          | some (s, []) => some (h, mi, s, 0)
          | some (s, c3 :: cs) =>
            if c3 = '.' then
              match parse6 cs with
              | some (us, []) => some (h, mi, s, us)
              | _ => none
            else none
          | _ => none
        else none
      | _ => none
    else none
  | _ => none

/-- `datetime.fromisoformat` (restricted to the shapes `datetime.isoformat`
emits: a date, optionally followed by a one-character separator and a
time-of-day; CPython accepts any separator character there). Returns
`none` where CPython raises `ValueError`. -/
def fromisoChars (cs : List Char) : Option DateTime :=
  match parseDateChars cs with
  | some (y, mo, d, []) => mkValidDT y mo d 0 0 0 0
  | some (y, mo, d, _sep :: rest) =>
    (match parseTimeChars rest with
     | some (h, mi, s, us) => mkValidDT y mo d h mi s us
     | none => none)
  | none => none

/-! ### Events and their dict serialization (`src/bot.py` `Event`) -/

/-- `bot.Event`: one scheduled occurrence. -/
structure Event where
  id : String
  title : String
  when : DateTime
  chat_id : Int
  deriving DecidableEq, Repr

/-- The dictionary produced by `Event.to_dict` / consumed by
`Event.from_dict`: `when` is carried as an ISO-8601 string. -/
structure RawEvent where
  id : String
  title : String
  when : String
  chat_id : Int
  deriving DecidableEq, Repr

/-- `Event.to_dict`. -/
def Event.to_dict (e : Event) : RawEvent :=
  ⟨e.id, e.title, ⟨isoformatChars e.when⟩, e.chat_id⟩

/-- `Event.from_dict`; `datetime.fromisoformat(raw["when"])` raises on a
corrupt record, modelled as `Except.error`. -/
def Event.from_dict (r : RawEvent) : Except String Event :=
  match fromisoChars r.when.data with
  | some dt => .ok ⟨r.id, r.title, dt, r.chat_id⟩
  | none => .error "Invalid isoformat string"

/-- An event whose datetime is in CPython's representable range. -/
def validEvent (e : Event) : Prop := validDT e.when

instance (e : Event) : Decidable (validEvent e) :=
  inferInstanceAs (Decidable (validDT e.when))

/-! ### The event store (`bot.EventStore`) -/

/-- In-memory image of the persisted store: owner-id string to the owner's
events, in file order (Python dicts preserve insertion order). -/
abbrev Store := List (String × List Event)

/-- `dict.get(key, default)` on an association list. -/
def alistGetD (s : Store) (k : String) (d : List Event) : List Event :=
  match s with
  | [] => d
  | (k', v) :: rest => if k' = k then v else alistGetD rest k d

/-- `data[key] = value` on an association list: replace in place if the key
exists, otherwise append (Python dict insertion-order semantics). -/
def alistSet (s : Store) (k : String) (v : List Event) : Store :=
  match s with
  | [] => [(k, v)]
  | (k', v') :: rest => if k' = k then (k, v) :: rest else (k', v') :: alistSet rest k v

/-- Python event ordering key: `lambda item: item.when`. -/
def eventLe (a b : Event) : Prop := dtLe a.when b.when

instance : DecidableRel eventLe := fun a b => inferInstanceAs (Decidable (dtLe a.when b.when))

instance : IsTotal Event eventLe :=
  ⟨fun a b => Int.le_total a.when.toOrdMicro b.when.toOrdMicro⟩

instance : IsTrans Event eventLe :=
  ⟨fun _ _ _ h1 h2 => Int.le_trans h1 h2⟩

/-- `EventStore.add_event`: read-modify-write — append the event to the
owner's list, sort the list by `when`, store it back under `str(user_id)`.
(`list.sort` is modelled by a sort; the claims checked here do not depend
on the order among equal keys.) -/
def add_event (store : Store) (user_id : Int) (event : Event) : Store :=
  let user_key := toString user_id
  let events := alistGetD store user_key []
  let events' := List.insertionSort eventLe (events ++ [event])
  alistSet store user_key events'

/-- `EventStore.list_events`: the owner's events sorted ascending by
`when`. -/
def list_events (store : Store) (user_id : Int) : List Event :=
  List.insertionSort eventLe (alistGetD store (toString user_id) [])

/-! ### The job queue (`telegram.ext.JobQueue`, as used by the bot) -/

/-- The payload dictionary the bot attaches to a job, together with the
callback it targets. -/
inductive JobPayload where
  | daily (user_id : Int) (event : Event)
  | reminder (user_id : Int) (event : Event) (offset : Timedelta)
  deriving DecidableEq, Repr

/-- `run_once` stores a delay in seconds; `run_repeating` a first delay and
an interval. Delays are kept in exact microseconds. -/
inductive JobSchedule where
  | once (delayUs : Int)
  | repeating (firstDelayUs : Int) (intervalUs : Int)
  deriving DecidableEq, Repr

/-- One registered job of the in-memory job queue. -/
structure Job where
  name : String
  sched : JobSchedule
  payload : JobPayload
  deriving DecidableEq, Repr

/-- `bot.remove_existing_jobs`: every job under `name` is cancelled
(`job.schedule_removal()`). -/
def remove_existing_jobs (jobs : List Job) (name : String) : List Job :=
  jobs.filter (fun j => decide (j.name ≠ name))

/-! ### The scheduler (`bot.schedule_*`) -/

/-- `bot.DAILY_REMINDER_TIME = time(hour=9, minute=0)`. -/
def DAILY_REMINDER_TIME : PyTime := ⟨9, 0, 0, 0⟩

/-- `bot.REMINDER_OFFSETS`: 10 h, 5 h, 30 min, 5 min, 0 s, in microseconds. -/
def REMINDER_OFFSETS : List Timedelta :=
  [⟨36000000000⟩, ⟨18000000000⟩, ⟨1800000000⟩, ⟨300000000⟩, ⟨0⟩]

/-- `datetime.combine(now.date(), DAILY_REMINDER_TIME)`. -/
def todayTarget (now : DateTime) : DateTime :=
  combineDT now.date DAILY_REMINDER_TIME

/-- First firing of the daily countdown as computed by
`schedule_daily_counter`: `today_target if today_target > now else
today_target + timedelta(days=1)`. -/
def dailyFirstRun (now : DateTime) : DateTime :=
  if dtLt now (todayTarget now) then todayTarget now
  else dtAddTd (todayTarget now) ⟨usPerDay⟩

/-- `f"daily-{user_id}-{event.id}"`. -/
def dailyJobName (user_id : Int) (event_id : String) : String :=
  "daily-" ++ toString user_id ++ "-" ++ event_id

/-- `f"reminder-{user_id}-{event.id}-{int(offset.total_seconds())}"`. -/
def reminderJobName (user_id : Int) (event_id : String) (offset : Timedelta) : String :=
  "reminder-" ++ toString user_id ++ "-" ++ event_id ++ "-" ++ toString (tdIntSeconds offset)

/-- The repeating job `schedule_daily_counter` registers. -/
def mkDailyJob (user_id : Int) (event : Event) (now : DateTime) : Job :=
  ⟨dailyJobName user_id event.id,
   .repeating (dtSub (dailyFirstRun now) now).us usPerDay,
   .daily user_id event⟩

/-- `bot.schedule_daily_counter`: cancel any job under the daily name, then
register the repeating countdown job. -/
def schedule_daily_counter (jobs : List Job) (user_id : Int) (event : Event)
    (now : DateTime) : List Job :=
  remove_existing_jobs jobs (dailyJobName user_id event.id) ++ [mkDailyJob user_id event now]

/-- The one-shot job `schedule_event_reminders` registers for one offset,
firing at `event.when - offset`. -/
def mkReminderJob (user_id : Int) (event : Event) (now : DateTime)
    (offset : Timedelta) : Job :=
  ⟨reminderJobName user_id event.id offset,
   .once (dtSub (dtSubTd event.when offset) now).us,
   .reminder user_id event offset⟩

/-- The loop body of `bot.schedule_event_reminders` over the offset list:
skip an offset whose fire time has passed, otherwise cancel any job under
its name and register the one-shot reminder. -/
def remindersLoop (user_id : Int) (event : Event) (now : DateTime) :
    List Timedelta → List Job → List Job
  | [], jobs => jobs
  | offset :: rest, jobs =>
    let when := dtSubTd event.when offset
    if dtLe when now then
      remindersLoop user_id event now rest jobs
    else
      remindersLoop user_id event now rest
        (remove_existing_jobs jobs (reminderJobName user_id event.id offset) ++
          [mkReminderJob user_id event now offset])

/-- `bot.schedule_event_reminders`. -/
def schedule_event_reminders (jobs : List Job) (user_id : Int) (event : Event)
    (now : DateTime) : List Job :=
  remindersLoop user_id event now REMINDER_OFFSETS jobs

/-- `bot.schedule_event_jobs`: nothing for an already-elapsed event,
otherwise the daily countdown then the lead-time reminders. -/
def schedule_event_jobs (jobs : List Job) (user_id : Int) (event : Event)
    (now : DateTime) : List Job :=
  if dtLe event.when now then jobs
  else
    schedule_event_reminders (schedule_daily_counter jobs user_id event now)
      user_id event now

/-- Result of `bot.create_event_and_schedule`: the store after
`add_event`, the job queue after `schedule_event_jobs`, and the returned
`Event`. -/
structure CreateResult where
  store : Store
  jobs : List Job
  event : Event
  deriving DecidableEq

/-- `bot.create_event_and_schedule`; the fresh `uuid4` is supplied as
`new_id`. The event is persisted unconditionally, then jobs are
scheduled, then the event is returned. -/
def create_event_and_schedule (new_id : String) (user_id chat_id : Int)
    (title : String) (when : DateTime) (store : Store) (jobs : List Job)
    (now : DateTime) : CreateResult :=
  let event : Event := ⟨new_id, title, when, chat_id⟩
  ⟨add_event store user_id event, schedule_event_jobs jobs user_id event now, event⟩

/-! ### The daily countdown callback (`bot.daily_countdown`) -/

/-- Observable outcome of one firing of `daily_countdown`. -/
inductive CountdownAction where
  | cancel
  | notify (days_left : Int)
  deriving DecidableEq, Repr

/-- `(event.when.date() - now.date()).days`. -/
def daysLeft (event : Event) (now : DateTime) : Int :=
  (ymd2ord event.when.date.year event.when.date.month event.when.date.day : Int) -
    (ymd2ord now.date.year now.date.month now.date.day : Int)

/-- `bot.daily_countdown`: self-cancel once `event.when <= now`, otherwise
send the days-left notification. -/
def daily_countdown (event : Event) (now : DateTime) : CountdownAction :=
  if dtLe event.when now then .cancel else .notify (daysLeft event now)

/-! ### Persistence parsing and recovery (`bot.EventStore._read`,
`bot.reschedule_all_events`) -/

/-- The JSON-level store: what `json.load` yields on the events file. -/
abbrev RawStore := List (String × List RawEvent)

/-- Serialize a store the way `EventStore._write` does. -/
def serializeStore (s : Store) : RawStore :=
  s.map (fun p => (p.1, p.2.map Event.to_dict))

/-- Parse one owner's record list; the first corrupt record fails the whole
read (`Event.from_dict` raises through the comprehension in `_read`). -/
def parseEvents : List RawEvent → Except String (List Event)
  | [] => .ok []
  | r :: rest =>
    match Event.from_dict r, parseEvents rest with
    | .ok e, .ok es => .ok (e :: es)
    | .error msg, _ => .error msg
    | _, .error msg => .error msg

/-- Parse the whole JSON store (`EventStore._read` body). -/
def parseStore : RawStore → Except String Store
  | [] => .ok []
  | (k, rs) :: rest =>
    match parseEvents rs, parseStore rest with
    | .ok es, .ok s => .ok ((k, es) :: s)
    | .error msg, _ => .error msg
    | _, .error msg => .error msg

/-- Python `int(string)` as used on owner keys: optional sign, then decimal
digits (the bot only ever writes `str(user_id)` keys). -/
def pyInt (s : String) : Option Int :=
  let digitsVal : List Char → Option Nat := fun cs =>
    if cs ≠ [] ∧ cs.all (fun c => '0' ≤ c ∧ c ≤ '9') then
      some (cs.foldl (fun acc c => 10 * acc + (c.toNat - 48)) 0)
    else none
  match s.data with
  | '-' :: cs => (digitsVal cs).map (fun n => -(n : Int))
  | '+' :: cs => (digitsVal cs).map (fun n => (n : Int))
  | cs => (digitsVal cs).map (fun n => (n : Int))

/-- Inner loop of `reschedule_all_events`: schedule jobs for each of one
owner's events that is still in the future. -/
def scheduleOwnerEvents (user_id : Int) (now : DateTime) :
    List Event → List Job → List Job
  | [], jobs => jobs
  | e :: es, jobs =>
    scheduleOwnerEvents user_id now es
      (if dtLt now e.when then schedule_event_jobs jobs user_id e now else jobs)

/-- `bot.reschedule_all_events` after `load_all` succeeded: walk the parsed
store, skip owner keys that fail `int(...)`, schedule every future event. -/
def rescheduleStore : Store → DateTime → List Job → List Job
  | [], _, jobs => jobs
  | (k, evs) :: rest, now, jobs =>
    match pyInt k with
    | none => rescheduleStore rest now jobs
    | some user_id => rescheduleStore rest now (scheduleOwnerEvents user_id now evs jobs)

/-- `bot.reschedule_all_events` from the raw JSON store: `load_all` parses
every record (raising on the first corrupt one), then the recovery loop
runs over the parsed snapshot with an empty job queue. -/
def reschedule_all_events (raw : RawStore) (now : DateTime) : Except String (List Job) :=
  match parseStore raw with
  | .ok store => .ok (rescheduleStore store now [])
  | .error msg => .error msg

/-- `Except.isOk` for observing parse/recovery outcomes. -/
def exceptOk {A : Type} : Except String A → Bool
  | .ok _ => true
  | .error _ => false

instance {E A : Type} [DecidableEq E] [DecidableEq A] : DecidableEq (Except E A) := fun x y =>
  match x, y with
  | .ok a, .ok b =>
    if h : a = b then isTrue (h ▸ rfl) else isFalse (fun hc => h (Except.ok.inj hc))
  | .error a, .error b =>
    if h : a = b then isTrue (h ▸ rfl) else isFalse (fun hc => h (Except.error.inj hc))
  | .ok _, .error _ => isFalse (fun hc => Except.noConfusion hc)
  | .error _, .ok _ => isFalse (fun hc => Except.noConfusion hc)

/-! ### Atomic file writes (`bot.EventStore._write`) -/

/-- Content of one file on disk: a complete serialized store, or bytes that
`json.load` rejects (a truncated or partially-written file). -/
inductive FileContent where
  | json (raw : RawStore)
  | corrupt

/-- The filesystem: path to content. -/
abbrev FSys := String → Option FileContent

/-- Write (or overwrite) one file in one step. -/
def setFile (fs : FSys) (p : String) (c : FileContent) : FSys :=
  fun q => if q = p then some c else fs q

/-- `Path.replace(dst)`: atomically rename `src` onto `dst`. -/
def renameFile (fs : FSys) (src dst : String) : FSys :=
  fun q => if q = dst then fs src else if q = src then none else fs q

/-- `bot.STORAGE_PATH`. -/
def STORAGE_PATH : String := "data/events.json"

/-- `Path.with_suffix` on the tail of the path characters (reversed scan:
drop back to the last dot of the final component, then append the new
suffix). -/
def dropExtRev : List Char → Option (List Char)
  | [] => none
  | '.' :: rest => some rest
  | '/' :: _ => none
  | _ :: rest => dropExtRev rest

/-- `Path.with_suffix(suffix)`. -/
def withSuffix (p suffix : String) : String :=
  match dropExtRev p.data.reverse with
  | some restRev => ⟨restRev.reverse ++ suffix.data⟩
  | none => ⟨p.data ++ suffix.data⟩

/-- `self.path.with_suffix(".tmp")` in `EventStore._write`. -/
def TMP_PATH : String := withSuffix STORAGE_PATH ".tmp"

/-- First half of `EventStore._write`: dump the full serialized store to
the temporary path. -/
def writeTmpStep (fs : FSys) (data : Store) : FSys :=
  setFile fs TMP_PATH (.json (serializeStore data))

/-- Second half of `EventStore._write`: `tmp_path.replace(self.path)`. -/
def renameStep (fs : FSys) : FSys :=
  renameFile fs TMP_PATH STORAGE_PATH

/-- A complete, uninterrupted `EventStore._write`. -/
def storeWrite (fs : FSys) (data : Store) : FSys :=
  renameStep (writeTmpStep fs data)

/-- `EventStore.load_all` (= `_read` under the lock): an absent file is an
empty mapping, a JSON file is parsed record by record, anything else
raises. -/
def load_all (fs : FSys) : Except String Store :=
  match fs STORAGE_PATH with
  | none => .ok []
  | some (.json raw) => parseStore raw
  | some .corrupt => .error "json decode error"

/-- Every event of every owner is in CPython's representable range. -/
def validStore (s : Store) : Prop :=
  ∀ p ∈ s, ∀ e ∈ p.2, validEvent e

instance (s : Store) : Decidable (validStore s) := by
  unfold validStore; infer_instance

/-! ### Spec-side definitions used by the claims -/

/-- The calendar day after a date (spec wording "tomorrow"), via the
ordinal bijection. -/
def nextCalendarDay (p : PyDate) : PyDate :=
  ord2ymd (ymd2ord p.year p.month p.day + 1)

/-- Modelled from the spec: "first firing = the next occurrence of that
time-of-day at or after `now` (today's occurrence if still ahead, otherwise
tomorrow's)", reading "at or before 09:00 keeps today's occurrence" as the
claim states it. -/
def specFirstRunAtOrAfter (now : DateTime) : DateTime :=
  if dtLe now (todayTarget now) then todayTarget now
  else combineDT (nextCalendarDay now.date) DAILY_REMINDER_TIME

/-- The amended first-firing rule: today's 09:00 only when `now` is
strictly before it, otherwise tomorrow's 09:00. -/
def specFirstRunStrict (now : DateTime) : DateTime :=
  if dtLt now (todayTarget now) then todayTarget now
  else combineDT (nextCalendarDay now.date) DAILY_REMINDER_TIME

/-- The offsets whose reminder actually gets scheduled at `now`. -/
def scheduledOffsets (event : Event) (now : DateTime) : List Timedelta :=
  REMINDER_OFFSETS.filter (fun offset => decide (dtLt now (dtSubTd event.when offset)))

/-- Names of the timers `schedule_event_jobs` derives for an event: the
daily name plus one reminder name per scheduled offset. -/
def derivedNames (user_id : Int) (event : Event) (now : DateTime) : List String :=
  dailyJobName user_id event.id ::
    (scheduledOffsets event now).map (reminderJobName user_id event.id)

/-- One step of scheduling along the creation path: the job queue
`create_event_and_schedule` leaves behind for this event (the store it
also touches is irrelevant to the timer set). -/
def creationPathJobs (jobs : List Job) (user_id : Int) (event : Event)
    (now : DateTime) : List Job :=
  (create_event_and_schedule event.id user_id event.chat_id event.title event.when
    [] jobs now).jobs

/-- Scheduling every event of the parsed store through the creation path
(what the spec calls "as if each event had just been created via the
normal path"), skipping the same unparsable owner keys. -/
def creationFold : Store → DateTime → List Job → List Job
  | [], _, jobs => jobs
  | (k, evs) :: rest, now, jobs =>
    match pyInt k with
    | none => creationFold rest now jobs
    | some user_id =>
      creationFold rest now
        (evs.foldl (fun js e => creationPathJobs js user_id e now) jobs)

/-- The offsets of `offs` whose reminder fire time is still ahead of
`now`. -/
def stillAhead (e : Event) (now : DateTime) (offs : List Timedelta) : List Timedelta :=
  offs.filter (fun o => decide (dtLt now (dtSubTd e.when o)))

/-! ### Helper lemmas: job names -/

/-- Appending to a common prefix is injective on strings. -/
theorem str_append_right_cancel {p a b : String} (h : p ++ a = p ++ b) : a = b := by
  have h' := congrArg String.data h
  simp only [String.data_append] at h'
  exact String.ext (List.append_cancel_left h')

/-- The daily job name never collides with a reminder job name. -/
theorem daily_name_ne_reminder_name (u1 u2 : Int) (i1 i2 : String) (off : Timedelta) :
    dailyJobName u1 i1 ≠ reminderJobName u2 i2 off := by
  intro h
  have h' := congrArg String.data h
  simp only [dailyJobName, reminderJobName, String.data_append] at h'
  simp only [List.cons_append, List.cons.injEq] at h'
  exact absurd h'.1 (by decide)

/-- Distinct configured offsets produce distinct reminder job names for the
same owner and event. -/
theorem reminder_names_nodup (u : Int) (i : String) :
    (REMINDER_OFFSETS.map (reminderJobName u i)).Nodup := by
  refine List.Nodup.map_on ?_ (by decide)
  intro x hx y hy hxy
  have hsuf := str_append_right_cancel hxy
  simp only [REMINDER_OFFSETS, List.mem_cons, List.not_mem_nil, or_false] at hx hy
  rcases hx with rfl | rfl | rfl | rfl | rfl <;>
    rcases hy with rfl | rfl | rfl | rfl | rfl <;>
      first
      | rfl
      | exact absurd hsuf (by decide)

/-- Python `not (a <= b)` is `b < a` on datetimes. -/
theorem dtLt_iff_not_le {a b : DateTime} : dtLt a b ↔ ¬ dtLe b a := Int.not_le.symm

/-! ### Helper lemmas: the reminder loop -/

/-- What one pass of the reminder loop does to the job queue: jobs whose
name matches a newly scheduled reminder are cancelled, and one fresh
one-shot job per still-ahead offset is appended, in offset order. -/
theorem remindersLoop_char (u : Int) (e : Event) (now : DateTime)
    (offs : List Timedelta) (jobs : List Job)
    (hnd : (offs.map (reminderJobName u e.id)).Nodup) :
    remindersLoop u e now offs jobs =
      jobs.filter
        (fun j => decide (j.name ∉ (stillAhead e now offs).map (reminderJobName u e.id))) ++
        (stillAhead e now offs).map (mkReminderJob u e now) := by
  induction offs generalizing jobs with
  | nil =>
    simp [remindersLoop, stillAhead]
  | cons o rest ih =>
    simp only [List.map_cons, List.nodup_cons] at hnd
    obtain ⟨ho, hrest⟩ := hnd
    by_cases hc : dtLe (dtSubTd e.when o) now
    · have hnlt : ¬ dtLt now (dtSubTd e.when o) := fun hl => (dtLt_iff_not_le.mp hl) hc
      have hsk : stillAhead e now (o :: rest) = stillAhead e now rest := by
        simp [stillAhead, List.filter_cons, decide_eq_false hnlt]
      simp only [remindersLoop, if_pos hc, hsk]
      exact ih jobs hrest
    · have hlt : dtLt now (dtSubTd e.when o) := dtLt_iff_not_le.mpr hc
      have hsc : stillAhead e now (o :: rest) = o :: stillAhead e now rest := by
        simp [stillAhead, List.filter_cons, decide_eq_true hlt]
      have hnotin : (mkReminderJob u e now o).name ∉
          (stillAhead e now rest).map (reminderJobName u e.id) := by
        intro hmem
        apply ho
        obtain ⟨o', ho', hname⟩ := List.mem_map.mp hmem
        have hname' : reminderJobName u e.id o' = reminderJobName u e.id o := hname
        exact hname' ▸ List.mem_map_of_mem _ (List.mem_of_mem_filter ho')
      simp only [remindersLoop, if_neg hc]
      rw [ih _ hrest, hsc]
      simp only [remove_existing_jobs, List.filter_append, List.filter_filter,
        List.map_cons]
      rw [List.append_assoc]
      congr 1
      · refine List.filter_congr ?_
        intro j _
        by_cases h1 : j.name = reminderJobName u e.id o <;>
          by_cases h2 : j.name ∈ (stillAhead e now rest).map (reminderJobName u e.id) <;>
            simp [h1, h2, List.mem_cons]
      · have : List.filter
            (fun j => decide (j.name ∉ (stillAhead e now rest).map (reminderJobName u e.id)))
            [mkReminderJob u e now o] = [mkReminderJob u e now o] := by
          rw [List.filter_cons, decide_eq_true hnotin]
          simp
        rw [this]
        rfl

/-- `scheduledOffsets` is `stillAhead` over the configured offset list. -/
theorem scheduledOffsets_eq (e : Event) (now : DateTime) :
    scheduledOffsets e now = stillAhead e now REMINDER_OFFSETS := rfl

/-- Full characterization of the derivation `schedule_event_jobs` runs for
a still-future event: previously registered jobs under any derived name
are cancelled, and the fresh daily job plus the still-ahead reminders are
appended. -/
theorem schedule_event_jobs_char (u : Int) (e : Event) (now : DateTime)
    (jobs : List Job) (h : ¬ dtLe e.when now) :
    schedule_event_jobs jobs u e now =
      jobs.filter (fun j => decide (j.name ∉ derivedNames u e now)) ++
        mkDailyJob u e now :: (scheduledOffsets e now).map (mkReminderJob u e now) := by
  have hdn : (mkDailyJob u e now).name ∉
      (stillAhead e now REMINDER_OFFSETS).map (reminderJobName u e.id) := by
    intro hmem
    obtain ⟨o', _, hname⟩ := List.mem_map.mp hmem
    exact daily_name_ne_reminder_name u u e.id e.id o' hname.symm
  unfold schedule_event_jobs
  rw [if_neg h]
  unfold schedule_event_reminders
  rw [remindersLoop_char u e now REMINDER_OFFSETS _ (reminder_names_nodup u e.id)]
  unfold schedule_daily_counter remove_existing_jobs
  rw [List.filter_append, List.filter_filter, List.append_assoc]
  congr 1
  · refine List.filter_congr ?_
    intro j _
    by_cases h1 : j.name = dailyJobName u e.id <;>
      by_cases h2 : j.name ∈ (stillAhead e now REMINDER_OFFSETS).map (reminderJobName u e.id) <;>
        simp [derivedNames, scheduledOffsets_eq, h1, h2, List.mem_cons]
  · rw [List.filter_cons, decide_eq_true hdn]
    simp [scheduledOffsets_eq]

/-- The names of the jobs a derivation pass appends are exactly the derived
names, in order. -/
theorem new_jobs_names (u : Int) (e : Event) (now : DateTime) :
    (mkDailyJob u e now :: (scheduledOffsets e now).map (mkReminderJob u e now)).map Job.name =
      derivedNames u e now := by
  simp only [List.map_cons, List.map_map]
  rfl

/-- The derived names are pairwise distinct. -/
theorem derivedNames_nodup (u : Int) (e : Event) (now : DateTime) :
    (derivedNames u e now).Nodup := by
  unfold derivedNames
  refine List.nodup_cons.mpr ⟨?_, ?_⟩
  · intro hmem
    obtain ⟨o, _, h⟩ := List.mem_map.mp hmem
    exact daily_name_ne_reminder_name u u e.id e.id o h.symm
  · have hs : List.Sublist ((scheduledOffsets e now).map (reminderJobName u e.id))
        (REMINDER_OFFSETS.map (reminderJobName u e.id)) :=
      List.Sublist.map _ (List.filter_sublist _)
    exact List.Nodup.sublist hs (reminder_names_nodup u e.id)

/-- In a job list with pairwise-distinct names, filtering by one of those
names yields exactly one job. -/
theorem filter_name_length_one {l : List Job} {n : String}
    (hmem : n ∈ l.map Job.name) (hnd : (l.map Job.name).Nodup) :
    (l.filter (fun j => decide (j.name = n))).length = 1 := by
  induction l with
  | nil => simp at hmem
  | cons j rest ih =>
    simp only [List.map_cons, List.nodup_cons] at hnd
    simp only [List.map_cons, List.mem_cons] at hmem
    rcases hmem with heq | hmem
    · subst heq
      rw [List.filter_cons, decide_eq_true rfl]
      have hrest : rest.filter (fun j' => decide (j'.name = j.name)) = [] := by
        rw [List.filter_eq_nil_iff]
        intro j' hj' hdec
        exact hnd.1 ((of_decide_eq_true hdec) ▸ List.mem_map_of_mem Job.name hj')
      simp [hrest]
    · have hne : j.name ≠ n := fun heq => hnd.1 (heq ▸ hmem)
      rw [List.filter_cons, decide_eq_false hne]
      simp only [Bool.false_eq_true, if_false]
      exact ih hmem hnd.2

/-- Running the derivation twice at the same instant leaves the job queue
exactly as one run leaves it. -/
theorem schedule_event_jobs_idem (u : Int) (e : Event) (now : DateTime)
    (jobs : List Job) :
    schedule_event_jobs (schedule_event_jobs jobs u e now) u e now =
      schedule_event_jobs jobs u e now := by
  by_cases h : dtLe e.when now
  · simp [schedule_event_jobs, h]
  · rw [schedule_event_jobs_char u e now _ h, schedule_event_jobs_char u e now jobs h,
      List.filter_append, List.filter_filter]
    have h1 : jobs.filter
        (fun j => decide (j.name ∉ derivedNames u e now) &&
          decide (j.name ∉ derivedNames u e now)) =
        jobs.filter (fun j => decide (j.name ∉ derivedNames u e now)) :=
      List.filter_congr (fun x _ => Bool.and_self _)
    have h2 : (mkDailyJob u e now ::
        (scheduledOffsets e now).map (mkReminderJob u e now)).filter
          (fun j => decide (j.name ∉ derivedNames u e now)) = [] := by
      rw [List.filter_eq_nil_iff]
      intro j hj hdec
      have hmem : j.name ∈ derivedNames u e now := by
        rw [← new_jobs_names u e now]
        exact List.mem_map_of_mem Job.name hj
      exact (of_decide_eq_true hdec) hmem
    rw [h1, h2, List.append_nil]

/-- Claim C3: for every event, the reminder derivation registers a one-shot
timer at `event.when - offset` for exactly the offsets of
{10h, 5h, 30m, 5m, 0s} whose fire time is still strictly ahead of `now`,
and nothing for the already-passed offsets; an event 20 minutes ahead
yields only the 5-minute and 0-second reminders. -/
theorem claim_C3 :
    (∀ (u : Int) (e : Event) (now : DateTime),
      schedule_event_reminders [] u e now =
        (scheduledOffsets e now).map (mkReminderJob u e now) ∧
      ∀ off : Timedelta,
        (mkReminderJob u e now off).sched =
          JobSchedule.once (dtSub (dtSubTd e.when off) now).us) ∧
    schedule_event_reminders [] 1 ⟨"E", "t", ⟨2024, 12, 31, 18, 0, 0, 0⟩, 7⟩
        ⟨2024, 12, 31, 17, 40, 0, 0⟩ =
      [⟨"reminder-1-E-300", JobSchedule.once 900000000,
        JobPayload.reminder 1 ⟨"E", "t", ⟨2024, 12, 31, 18, 0, 0, 0⟩, 7⟩ ⟨300000000⟩⟩,
       ⟨"reminder-1-E-0", JobSchedule.once 1200000000,
        JobPayload.reminder 1 ⟨"E", "t", ⟨2024, 12, 31, 18, 0, 0, 0⟩, 7⟩ ⟨0⟩⟩] := by
  constructor
  · intro u e now
    constructor
    · unfold schedule_event_reminders
      rw [remindersLoop_char u e now REMINDER_OFFSETS [] (reminder_names_nodup u e.id)]
      simp [scheduledOffsets_eq]
    · intro off
      rfl
  · decide

/-- Claim C5: timer derivation is idempotent — a second derivation at the
same `now` leaves the registry unchanged — and each derived name (the
deterministic daily name and one deterministic name per scheduled reminder
offset) carries exactly one live job after derivation. -/
theorem claim_C5 (u : Int) (e : Event) (now : DateTime) (jobs : List Job) :
    schedule_event_jobs (schedule_event_jobs jobs u e now) u e now =
      schedule_event_jobs jobs u e now ∧
    (¬ dtLe e.when now →
      ∀ n ∈ derivedNames u e now,
        ((schedule_event_jobs jobs u e now).filter
          (fun j => decide (j.name = n))).length = 1) := by
  refine ⟨schedule_event_jobs_idem u e now jobs, ?_⟩
  intro h n hn
  rw [schedule_event_jobs_char u e now jobs h, List.filter_append]
  have h1 : (jobs.filter (fun j => decide (j.name ∉ derivedNames u e now))).filter
      (fun j => decide (j.name = n)) = [] := by
    rw [List.filter_eq_nil_iff]
    intro j hj hdec
    have hj2 := of_decide_eq_true (List.mem_filter.mp hj).2
    exact hj2 ((of_decide_eq_true hdec) ▸ hn)
  rw [h1, List.nil_append]
  exact filter_name_length_one ((new_jobs_names u e now).symm ▸ hn)
    ((new_jobs_names u e now).symm ▸ derivedNames_nodup u e now)

/-- Witness for C5 at a concrete future event. -/
theorem claim_C5_witness :
    (¬ dtLe (⟨2024, 12, 31, 18, 0, 0, 0⟩ : DateTime) ⟨2024, 12, 31, 17, 40, 0, 0⟩) ∧
    ((schedule_event_jobs [] 1 ⟨"E", "t", ⟨2024, 12, 31, 18, 0, 0, 0⟩, 7⟩
        ⟨2024, 12, 31, 17, 40, 0, 0⟩).filter
      (fun j => decide (j.name = dailyJobName 1 "E"))).length = 1 := by
  refine ⟨by decide, ?_⟩
  exact (claim_C5 1 ⟨"E", "t", ⟨2024, 12, 31, 18, 0, 0, 0⟩, 7⟩
    ⟨2024, 12, 31, 17, 40, 0, 0⟩ []).2 (by decide) _ (by decide)

/-- Datetime order: from `¬ a < b` conclude `b ≤ a`. -/
theorem dtLe_of_not_dtLt {a b : DateTime} (h : ¬ dtLt a b) : dtLe b a := Int.not_lt.mp h

/-- Datetime order: from `a ≤ b` conclude `¬ b < a`. -/
theorem not_dtLt_of_dtLe {a b : DateTime} (h : dtLe a b) : ¬ dtLt b a := Int.not_lt.mpr h

/-- The guard of `schedule_event_jobs`: an elapsed event schedules
nothing. -/
theorem schedule_event_jobs_guard {e : Event} {now : DateTime} (u : Int)
    (jobs : List Job) (h : dtLe e.when now) :
    schedule_event_jobs jobs u e now = jobs := by
  simp [schedule_event_jobs, h]

/-- The timers `create_event_and_schedule` registers are exactly those of
`schedule_event_jobs` for the created event. -/
theorem creationPathJobs_eq (jobs : List Job) (u : Int) (e : Event) (now : DateTime) :
    creationPathJobs jobs u e now = schedule_event_jobs jobs u e now := rfl

/-- The recovery inner loop equals folding the creation path over the
owner's events: the extra `event.when > now` test in
`reschedule_all_events` is subsumed by the guard in
`schedule_event_jobs`. -/
theorem scheduleOwnerEvents_eq_creation (u : Int) (now : DateTime)
    (evs : List Event) (jobs : List Job) :
    scheduleOwnerEvents u now evs jobs =
      evs.foldl (fun js e => creationPathJobs js u e now) jobs := by
  induction evs generalizing jobs with
  | nil => rfl
  | cons e es ih =>
    have hstep : (if dtLt now e.when then schedule_event_jobs jobs u e now else jobs) =
        creationPathJobs jobs u e now := by
      by_cases hlt : dtLt now e.when
      · rw [if_pos hlt, creationPathJobs_eq]
      · rw [if_neg hlt, creationPathJobs_eq,
          schedule_event_jobs_guard u jobs (dtLe_of_not_dtLt hlt)]
    rw [scheduleOwnerEvents, hstep, List.foldl_cons]
    exact ih _

/-- An owner whose events have all elapsed contributes no timers. -/
theorem scheduleOwnerEvents_past (u : Int) (now : DateTime) (evs : List Event)
    (jobs : List Job) (h : ∀ e ∈ evs, dtLe e.when now) :
    scheduleOwnerEvents u now evs jobs = jobs := by
  induction evs generalizing jobs with
  | nil => rfl
  | cons e es ih =>
    rw [scheduleOwnerEvents, if_neg (not_dtLt_of_dtLe (h e (List.mem_cons_self e es)))]
    exact ih jobs (fun e' he' => h e' (List.mem_cons_of_mem _ he'))

/-- Claim C4: recovery over a store with an empty timer registry builds
exactly the timer set the creation path would build for each stored event
at the same `now`, and a store of only elapsed events is left entirely
unscheduled. -/
theorem claim_C4 (store : Store) (now : DateTime) :
    rescheduleStore store now [] = creationFold store now [] ∧
    ((∀ p ∈ store, ∀ e ∈ p.2, dtLe e.when now) →
      rescheduleStore store now [] = []) := by
  have key : ∀ (s : Store) (jobs : List Job),
      rescheduleStore s now jobs = creationFold s now jobs := by
    intro s
    induction s with
    | nil => intro jobs; rfl
    | cons p rest ih =>
      intro jobs
      obtain ⟨k, evs⟩ := p
      rw [rescheduleStore, creationFold]
      cases pyInt k with
      | none => exact ih jobs
      | some uid =>
        simp only
        rw [scheduleOwnerEvents_eq_creation, ih]
  have past : ∀ (s : Store) (jobs : List Job),
      (∀ p ∈ s, ∀ e ∈ p.2, dtLe e.when now) →
      rescheduleStore s now jobs = jobs := by
    intro s
    induction s with
    | nil => intro jobs _; rfl
    | cons p rest ih =>
      intro jobs h
      obtain ⟨k, evs⟩ := p
      rw [rescheduleStore]
      cases pyInt k with
      | none => exact ih jobs (fun q hq => h q (List.mem_cons_of_mem _ hq))
      | some uid =>
        simp only
        rw [scheduleOwnerEvents_past uid now evs jobs
          (fun e he => h (k, evs) (List.mem_cons_self (k, evs) rest) e he)]
        exact ih jobs (fun q hq => h q (List.mem_cons_of_mem _ hq))
  exact ⟨key store [], fun h => past store [] h⟩

/-- Witness for C4's second part: a store whose only events are already
past yields no timers on recovery. -/
theorem claim_C4_witness :
    (∀ p ∈ ([("1", [⟨"E", "t", ⟨2020, 1, 1, 9, 0, 0, 0⟩, 7⟩])] : Store),
      ∀ e ∈ p.2, dtLe e.when ⟨2024, 12, 31, 17, 40, 0, 0⟩) ∧
    rescheduleStore [("1", [⟨"E", "t", ⟨2020, 1, 1, 9, 0, 0, 0⟩, 7⟩])]
      ⟨2024, 12, 31, 17, 40, 0, 0⟩ [] = [] := by
  refine ⟨by decide, ?_⟩
  exact (claim_C4 [("1", [⟨"E", "t", ⟨2020, 1, 1, 9, 0, 0, 0⟩, 7⟩])]
    ⟨2024, 12, 31, 17, 40, 0, 0⟩).2 (by decide)

/-- Claim C1 counterexample: called with `when = now` (not strictly
future), `create_event_and_schedule` still persists a new Event into the
store and still returns it — the claim's "no Event is added and none
returned" fails on the code. -/
theorem claim_C1_counterexample :
    dtLe (⟨2025, 1, 1, 12, 0, 0, 0⟩ : DateTime) ⟨2025, 1, 1, 12, 0, 0, 0⟩ ∧
    (create_event_and_schedule "id0" 1 2 "T" ⟨2025, 1, 1, 12, 0, 0, 0⟩ [] []
      ⟨2025, 1, 1, 12, 0, 0, 0⟩).store =
      [("1", [⟨"id0", "T", ⟨2025, 1, 1, 12, 0, 0, 0⟩, 2⟩])] ∧
    (create_event_and_schedule "id0" 1 2 "T" ⟨2025, 1, 1, 12, 0, 0, 0⟩ [] []
      ⟨2025, 1, 1, 12, 0, 0, 0⟩).event =
      ⟨"id0", "T", ⟨2025, 1, 1, 12, 0, 0, 0⟩, 2⟩ := by
  decide

/-- Claim C1 (amended): for `when <= now`, `create_event_and_schedule`
registers no timers (the scheduling guard fires), but it does persist the
Event through `add_event` and does return it; the reject-before-mutating
validation lives in the chat handlers, which check `when <= now` before
calling it. -/
theorem claim_C1_amended (new_id : String) (u c : Int) (title : String)
    (when : DateTime) (store : Store) (jobs : List Job) (now : DateTime)
    (h : dtLe when now) :
    (create_event_and_schedule new_id u c title when store jobs now).jobs = jobs ∧
    (create_event_and_schedule new_id u c title when store jobs now).store =
      add_event store u ⟨new_id, title, when, c⟩ ∧
    (create_event_and_schedule new_id u c title when store jobs now).event =
      ⟨new_id, title, when, c⟩ := by
  exact ⟨schedule_event_jobs_guard u jobs h, rfl, rfl⟩

/-- Witness for the amended C1. -/
theorem claim_C1_witness :
    dtLe (⟨2025, 3, 4, 10, 30, 0, 0⟩ : DateTime) ⟨2025, 3, 4, 10, 30, 0, 0⟩ ∧
    (create_event_and_schedule "id1" 5 6 "U" ⟨2025, 3, 4, 10, 30, 0, 0⟩ [] []
      ⟨2025, 3, 4, 10, 30, 0, 0⟩).jobs = [] :=
  ⟨by decide,
   (claim_C1_amended "id1" 5 6 "U" ⟨2025, 3, 4, 10, 30, 0, 0⟩ [] []
     ⟨2025, 3, 4, 10, 30, 0, 0⟩ (by decide)).1⟩

/-- Claim C2 counterexample: at 09:00 of the event's own day (event at
18:00 that day) `days_left` is zero, yet `daily_countdown` does not
self-cancel — it sends a notification reporting 0 days. The code's cancel
condition is `event.when <= now`, not `days_left <= 0`. -/
theorem claim_C2_counterexample :
    daysLeft ⟨"E", "t", ⟨2024, 12, 31, 18, 0, 0, 0⟩, 7⟩ ⟨2024, 12, 31, 9, 0, 0, 0⟩ ≤ 0 ∧
    daily_countdown ⟨"E", "t", ⟨2024, 12, 31, 18, 0, 0, 0⟩, 7⟩ ⟨2024, 12, 31, 9, 0, 0, 0⟩ ≠
      CountdownAction.cancel ∧
    daily_countdown ⟨"E", "t", ⟨2024, 12, 31, 18, 0, 0, 0⟩, 7⟩ ⟨2024, 12, 31, 9, 0, 0, 0⟩ =
      CountdownAction.notify 0 := by
  decide

/-- Claim C2 (amended): a daily-countdown firing self-cancels exactly when
`event.when <= now`; whenever the event is still ahead it notifies with
`days_left = (event.when.date() - now.date()).days`, which can be zero on
the event's own morning. -/
theorem claim_C2_amended (e : Event) (now : DateTime) :
    (daily_countdown e now = CountdownAction.cancel ↔ dtLe e.when now) ∧
    (¬ dtLe e.when now →
      daily_countdown e now = CountdownAction.notify (daysLeft e now)) := by
  constructor
  · constructor
    · intro h
      by_contra hc
      unfold daily_countdown at h
      rw [if_neg hc] at h
      exact CountdownAction.noConfusion h
    · intro h
      unfold daily_countdown
      rw [if_pos h]
  · intro h
    unfold daily_countdown
    rw [if_neg h]

/-- Witness for the amended C2: the event's-own-morning firing notifies
with zero days left. -/
theorem claim_C2_witness :
    (¬ dtLe (⟨2024, 12, 31, 18, 0, 0, 0⟩ : DateTime) ⟨2024, 12, 31, 9, 0, 0, 0⟩) ∧
    daily_countdown ⟨"F", "t", ⟨2024, 12, 31, 18, 0, 0, 0⟩, 7⟩ ⟨2024, 12, 31, 9, 0, 0, 0⟩ =
      CountdownAction.notify 0 := by
  refine ⟨by decide, ?_⟩
  have h := (claim_C2_amended ⟨"F", "t", ⟨2024, 12, 31, 18, 0, 0, 0⟩, 7⟩
    ⟨2024, 12, 31, 9, 0, 0, 0⟩).2 (by decide)
  exact h.trans (by decide)

/-- Adding one day to today's 09:00 lands on the next calendar day's
09:00. -/
theorem dtAddTd_day_at_nine (now : DateTime) :
    dtAddTd (todayTarget now) ⟨usPerDay⟩ =
      combineDT (nextCalendarDay now.date) DAILY_REMINDER_TIME := by
  have h1 : (todayTarget now).toOrdMicro =
      (ymd2ord now.year now.month now.day : Int) * usPerDay + 32400000000 := by
    simp [todayTarget, combineDT, DateTime.toOrdMicro, DateTime.todUs,
      DAILY_REMINDER_TIME, DateTime.date]
  unfold dtAddTd
  rw [h1]
  have h2 : (ymd2ord now.year now.month now.day : Int) * usPerDay + 32400000000 + usPerDay =
      ((ymd2ord now.year now.month now.day : Int) + 1) * usPerDay + 32400000000 := by
    ring
  rw [h2]
  unfold fromOrdMicro
  have hD : usPerDay = (86400000000 : Int) := rfl
  have hed : ∀ x y : Int, x.ediv y = x / y := fun x y => rfl
  have hem : ∀ x y : Int, x.emod y = x % y := fun x y => rfl
  have hdiv : ((((ymd2ord now.year now.month now.day : Int) + 1) * usPerDay +
      32400000000).ediv usPerDay).toNat = ymd2ord now.year now.month now.day + 1 := by
    rw [hD, hed]
    omega
  have hmod : ((((ymd2ord now.year now.month now.day : Int) + 1) * usPerDay +
      32400000000).emod usPerDay).toNat = 32400000000 := by
    rw [hD, hem]
    omega
  rw [hdiv, hmod]
  simp only [combineDT, nextCalendarDay, DateTime.date, DAILY_REMINDER_TIME]

/-- Claim C6 counterexample: with `now` exactly 09:00:00.000000, the code
schedules the first daily firing for tomorrow's 09:00, while the claim's
"today's 09:00 when now is at or before 09:00" demands today's. -/
theorem claim_C6_counterexample :
    dailyFirstRun ⟨2024, 12, 1, 9, 0, 0, 0⟩ = ⟨2024, 12, 2, 9, 0, 0, 0⟩ ∧
    specFirstRunAtOrAfter ⟨2024, 12, 1, 9, 0, 0, 0⟩ = ⟨2024, 12, 1, 9, 0, 0, 0⟩ ∧
    dailyFirstRun ⟨2024, 12, 1, 9, 0, 0, 0⟩ ≠
      specFirstRunAtOrAfter ⟨2024, 12, 1, 9, 0, 0, 0⟩ := by
  decide

/-- Claim C6 (amended): the first daily firing is today's 09:00 when `now`
is strictly before 09:00, otherwise tomorrow's 09:00 (`today_target > now`
is strict, so a firing at exactly 09:00 rolls to the next day); the
spec's example — an event scheduled at 2024-12-01 12:00 first fires at
2024-12-02 09:00 — holds. -/
theorem claim_C6_amended :
    (∀ now : DateTime, dailyFirstRun now = specFirstRunStrict now) ∧
    dailyFirstRun ⟨2024, 12, 1, 12, 0, 0, 0⟩ = ⟨2024, 12, 2, 9, 0, 0, 0⟩ := by
  constructor
  · intro now
    unfold dailyFirstRun specFirstRunStrict
    by_cases h : dtLt now (todayTarget now)
    · rw [if_pos h, if_pos h]
    · rw [if_neg h, if_neg h, dtAddTd_day_at_nine]
  · decide

/-- Printing then reading back one decimal digit. -/
theorem parseDigit_digitChar {d : Nat} (h : d < 10) :
    parseDigit (digitChar d) = some d := by
  interval_cases d <;> rfl

/-- Printing then reading back two padded digits. -/
theorem parse2_pad2 {n : Nat} (h : n < 100) (rest : List Char) :
    parse2 (pad2 n ++ rest) = some (n, rest) := by
  have h1 : n / 10 < 10 := by omega
  have h2 : n % 10 < 10 := Nat.mod_lt _ (by omega)
  simp only [pad2, List.cons_append, List.nil_append, parse2,
    parseDigit_digitChar h1, parseDigit_digitChar h2]
  have : 10 * (n / 10) + n % 10 = n := by omega
  rw [this]

/-- Printing then reading back four padded digits. -/
theorem parse4_pad4 {n : Nat} (h : n < 10000) (rest : List Char) :
    parse4 (pad4 n ++ rest) = some (n, rest) := by
  have h1 : n / 1000 < 10 := by omega
  have h2 : n / 100 % 10 < 10 := Nat.mod_lt _ (by omega)
  have h3 : n / 10 % 10 < 10 := Nat.mod_lt _ (by omega)
  have h4 : n % 10 < 10 := Nat.mod_lt _ (by omega)
  simp only [pad4, List.cons_append, List.nil_append, parse4,
    parseDigit_digitChar h1, parseDigit_digitChar h2,
    parseDigit_digitChar h3, parseDigit_digitChar h4]
  have : 1000 * (n / 1000) + 100 * (n / 100 % 10) + 10 * (n / 10 % 10) + n % 10 = n := by
    omega
  rw [this]

/-- Printing then reading back six padded digits. -/
theorem parse6_pad6 {n : Nat} (h : n < 1000000) (rest : List Char) :
    parse6 (pad6 n ++ rest) = some (n, rest) := by
  have h1 : n / 100000 < 10 := by omega
  have h2 : n / 10000 % 10 < 10 := Nat.mod_lt _ (by omega)
  have h3 : n / 1000 % 10 < 10 := Nat.mod_lt _ (by omega)
  have h4 : n / 100 % 10 < 10 := Nat.mod_lt _ (by omega)
  have h5 : n / 10 % 10 < 10 := Nat.mod_lt _ (by omega)
  have h6 : n % 10 < 10 := Nat.mod_lt _ (by omega)
  simp only [pad6, List.cons_append, List.nil_append, parse6,
    parseDigit_digitChar h1, parseDigit_digitChar h2, parseDigit_digitChar h3,
    parseDigit_digitChar h4, parseDigit_digitChar h5, parseDigit_digitChar h6]
  have : 100000 * (n / 100000) + 10000 * (n / 10000 % 10) + 1000 * (n / 1000 % 10) +
      100 * (n / 100 % 10) + 10 * (n / 10 % 10) + n % 10 = n := by
    omega
  rw [this]

/-- Every month-table entry is at most 31 days. -/
theorem daysInMonthTbl_le (m : Nat) : daysInMonthTbl m ≤ 31 := by
  unfold daysInMonthTbl
  rcases Nat.lt_or_ge (m - 1) 12 with h | h
  · set i := m - 1 with hi
    interval_cases i <;> decide
  · rw [List.getD_eq_default]
    · decide
    · simpa using h

/-- Every month has at most 31 days. -/
theorem daysInMonth_le (y m : Nat) : daysInMonth y m ≤ 31 := by
  unfold daysInMonth
  split
  · decide
  · exact daysInMonthTbl_le m

/-- Reading back a printed `YYYY-MM-DD` prefix. -/
theorem parseDate_round {y mo d : Nat} (rest : List Char)
    (hy : y < 10000) (hmo : mo < 100) (hd : d < 100) :
    parseDateChars (pad4 y ++ '-' :: (pad2 mo ++ '-' :: (pad2 d ++ rest))) =
      some (y, mo, d, rest) := by
  unfold parseDateChars
  rw [parse4_pad4 hy]
  dsimp only
  rw [if_pos rfl, parse2_pad2 hmo]
  dsimp only
  rw [if_pos rfl, parse2_pad2 hd]

/-- Reading back a printed `HH:MM:SS[.ffffff]` time-of-day. -/
theorem parseTime_round {hr mi s us : Nat}
    (hhr : hr < 100) (hmi : mi < 100) (hs : s < 100) (hus : us < 1000000) :
    parseTimeChars (pad2 hr ++ ':' :: (pad2 mi ++ ':' ::
        (pad2 s ++ (if us = 0 then [] else '.' :: pad6 us)))) =
      some (hr, mi, s, us) := by
  unfold parseTimeChars
  rw [parse2_pad2 hhr]
  dsimp only
  rw [if_pos rfl, parse2_pad2 hmi]
  by_cases hz : us = 0
  · subst hz
    rw [if_pos rfl]
    dsimp only
    rw [if_pos rfl, parse2_pad2 hs]
  · rw [if_neg hz]
    dsimp only
    rw [if_pos rfl, parse2_pad2 hs]
    dsimp only
    rw [if_pos rfl, show pad6 us = pad6 us ++ [] from (List.append_nil _).symm,
      parse6_pad6 hus]

/-- `fromisoformat` inverts `isoformat` on every in-range datetime. -/
theorem fromiso_iso {dt : DateTime} (h : validDT dt) :
    fromisoChars (isoformatChars dt) = some dt := by
  have hdm := daysInMonth_le dt.year dt.month
  obtain ⟨y, mo, d, hr, mi, s, us⟩ := dt
  simp only [validDT] at h
  obtain ⟨hy1, hy2, hm1, hm2, hd1, hd2, hh, hmi2, hs2, hus2⟩ := h
  simp only at hdm
  unfold isoformatChars
  dsimp only
  unfold fromisoChars
  rw [parseDate_round _ (by omega) (by omega) (by omega)]
  dsimp only
  rw [parseTime_round (by omega) (by omega) (by omega) (by omega)]
  dsimp only
  unfold mkValidDT
  rw [if_pos]
  exact ⟨hy1, hy2, hm1, hm2, hd1, hd2, hh, hmi2, hs2, hus2⟩

/-- `Event.from_dict` inverts `Event.to_dict` on every in-range event. -/
theorem from_dict_to_dict {e : Event} (h : validEvent e) :
    Event.from_dict (Event.to_dict e) = Except.ok e := by
  unfold Event.to_dict Event.from_dict
  dsimp only
  rw [fromiso_iso h]

/-- Claim C10: `Event.from_dict` recovers every in-range event exactly from
`Event.to_dict` — id, title, chat id and the ISO-formatted timestamp all
round-trip, so persisting and reloading never alters an event. -/
theorem claim_C10 (e : Event) (h : validEvent e) :
    Event.from_dict (Event.to_dict e) = Except.ok e :=
  from_dict_to_dict h

/-- Witness for C10, with and without a microsecond component. -/
theorem claim_C10_witness :
    validEvent ⟨"a", "t", ⟨2024, 12, 31, 18, 0, 0, 0⟩, 5⟩ ∧
    Event.from_dict (Event.to_dict ⟨"a", "t", ⟨2024, 12, 31, 18, 0, 0, 0⟩, 5⟩) =
      Except.ok ⟨"a", "t", ⟨2024, 12, 31, 18, 0, 0, 0⟩, 5⟩ ∧
    Event.from_dict (Event.to_dict ⟨"b", "u", ⟨2023, 2, 28, 23, 59, 59, 123456⟩, 6⟩) =
      Except.ok ⟨"b", "u", ⟨2023, 2, 28, 23, 59, 59, 123456⟩, 6⟩ :=
  ⟨by decide, claim_C10 _ (by decide), claim_C10 _ (by decide)⟩

/-- Parsing back a serialized event list recovers it exactly. -/
theorem parseEvents_to_dict (evs : List Event) (h : ∀ e ∈ evs, validEvent e) :
    parseEvents (evs.map Event.to_dict) = .ok evs := by
  induction evs with
  | nil => rfl
  | cons e es ih =>
    simp only [List.map_cons, parseEvents]
    rw [from_dict_to_dict (h e (List.mem_cons_self e es)),
      ih (fun e' he' => h e' (List.mem_cons_of_mem _ he'))]

/-- Parsing back a serialized store recovers it exactly. -/
theorem parseStore_serialize (s : Store) (h : validStore s) :
    parseStore (serializeStore s) = .ok s := by
  induction s with
  | nil => rfl
  | cons p rest ih =>
    obtain ⟨k, evs⟩ := p
    have ih' := ih (fun q hq => h q (List.mem_cons_of_mem _ hq))
    simp only [serializeStore, List.map_cons] at ih' ⊢
    simp only [parseStore]
    rw [parseEvents_to_dict evs
      (fun ev hev => h (k, evs) (List.mem_cons_self _ _) ev hev), ih']

/-- Claim C7: `EventStore._write` is atomic via temp-file-then-rename — a
crash after writing the temporary file but before the rename (or a
partially-written temporary file) leaves `load_all()` returning exactly
the pre-write state, and a completed write makes `load_all()` return the
new store. -/
theorem claim_C7 :
    (∀ (fs : FSys) (data : Store),
      load_all (writeTmpStep fs data) = load_all fs) ∧
    (∀ (fs : FSys) (c : FileContent),
      load_all (setFile fs TMP_PATH c) = load_all fs) ∧
    (∀ (fs : FSys) (data : Store), validStore data →
      load_all (storeWrite fs data) = Except.ok data) := by
  have hne : STORAGE_PATH ≠ TMP_PATH := by decide
  refine ⟨fun fs data => ?_, fun fs c => ?_, fun fs data h => ?_⟩
  · simp only [load_all, writeTmpStep, setFile]
    rw [if_neg hne]
  · simp only [load_all, setFile]
    rw [if_neg hne]
  · simp only [load_all, storeWrite, renameStep, renameFile, writeTmpStep, setFile,
      if_true]
    exact parseStore_serialize data h

/-- Witness for C7's completed-write clause. -/
theorem claim_C7_witness :
    validStore [("1", [⟨"a", "t", ⟨2024, 12, 31, 18, 0, 0, 0⟩, 5⟩])] ∧
    load_all (storeWrite (fun _ => none)
        [("1", [⟨"a", "t", ⟨2024, 12, 31, 18, 0, 0, 0⟩, 5⟩])]) =
      Except.ok [("1", [⟨"a", "t", ⟨2024, 12, 31, 18, 0, 0, 0⟩, 5⟩])] :=
  ⟨by decide, claim_C7.2.2 _ _ (by decide)⟩

/-- If an owner's record list parses, every one of its records parses. -/
theorem parseEvents_all_of_ok (rs : List RawEvent) (es : List Event)
    (h : parseEvents rs = .ok es) :
    ∀ r ∈ rs, exceptOk (Event.from_dict r) = true := by
  induction rs generalizing es with
  | nil => intro r hr; simp at hr
  | cons r0 rest ih =>
    intro r hr
    rw [parseEvents] at h
    cases hr0 : Event.from_dict r0 with
    | error m =>
      cases hrest : parseEvents rest with
      | error m2 => rw [hr0, hrest] at h; exact Except.noConfusion h
      | ok es2 => rw [hr0, hrest] at h; exact Except.noConfusion h
    | ok e0 =>
      cases hrest : parseEvents rest with
      | error m2 => rw [hr0, hrest] at h; exact Except.noConfusion h
      | ok es2 =>
        rcases List.mem_cons.mp hr with rfl | hr'
        · rw [hr0]; rfl
        · exact ih _ hrest r hr'

/-- If the whole store parses, every record of every owner parses. -/
theorem parseStore_all_of_ok (raw : RawStore) (s : Store)
    (h : parseStore raw = .ok s) :
    ∀ p ∈ raw, ∀ r ∈ p.2, exceptOk (Event.from_dict r) = true := by
  induction raw generalizing s with
  | nil => intro p hp; simp at hp
  | cons q rest ih =>
    intro p hp
    obtain ⟨k, rs⟩ := q
    rw [parseStore] at h
    cases hrs : parseEvents rs with
    | error m =>
      cases hrest : parseStore rest with
      | error m2 => rw [hrs, hrest] at h; exact Except.noConfusion h
      | ok s2 => rw [hrs, hrest] at h; exact Except.noConfusion h
    | ok es =>
      cases hrest : parseStore rest with
      | error m2 => rw [hrs, hrest] at h; exact Except.noConfusion h
      | ok s2 =>
        rcases List.mem_cons.mp hp with rfl | hp'
        · exact parseEvents_all_of_ok rs _ hrs
        · exact ih _ hrest p hp'

/-- Claim C8 counterexample: a store holding one well-formed future event
for owner 1 and one corrupt record for owner 2 makes the whole recovery
pass fail — owner 1's event is not scheduled, against the claim's
"per-record skip, never aborted". -/
theorem claim_C8_counterexample :
    exceptOk (Event.from_dict
      (Event.to_dict ⟨"E", "t", ⟨2031, 1, 1, 10, 0, 0, 0⟩, 7⟩)) = true ∧
    dtLt ⟨2024, 12, 31, 17, 40, 0, 0⟩ (⟨2031, 1, 1, 10, 0, 0, 0⟩ : DateTime) ∧
    exceptOk (reschedule_all_events
      [("1", [Event.to_dict ⟨"E", "t", ⟨2031, 1, 1, 10, 0, 0, 0⟩, 7⟩]),
       ("2", [⟨"x", "y", "garbage", 3⟩])]
      ⟨2024, 12, 31, 17, 40, 0, 0⟩) = false := by
  decide

/-- Claim C8 (amended): only unparsable owner-ids are skipped per-record;
a corrupt event record fails the whole `load_all` and aborts the entire
recovery pass, while a fully parsable store recovers every owner, with
bad owner keys skipped without affecting the rest. -/
theorem claim_C8_amended :
    (∀ (raw : RawStore) (now : DateTime),
      (∃ p ∈ raw, ∃ r ∈ p.2, exceptOk (Event.from_dict r) = false) →
        exceptOk (reschedule_all_events raw now) = false) ∧
    (∀ (raw : RawStore) (now : DateTime) (store : Store),
      parseStore raw = .ok store →
        reschedule_all_events raw now = .ok (rescheduleStore store now [])) ∧
    (∀ (k : String) (evs : List Event) (rest : Store) (now : DateTime)
      (jobs : List Job), pyInt k = none →
        rescheduleStore ((k, evs) :: rest) now jobs =
          rescheduleStore rest now jobs) := by
  refine ⟨?_, ?_, ?_⟩
  · intro raw now h
    cases hps : parseStore raw with
    | error msg => simp [reschedule_all_events, hps, exceptOk]
    | ok s =>
      exfalso
      obtain ⟨p, hp, r, hr, hbad⟩ := h
      rw [parseStore_all_of_ok raw s hps p hp r hr] at hbad
      exact Bool.noConfusion hbad
  · intro raw now store hps
    simp [reschedule_all_events, hps]
  · intro k evs rest now jobs h
    simp [rescheduleStore, h]

/-- Witness for the amended C8: a corrupt record aborts recovery; a clean
store recovers; a non-integer owner key is skipped. -/
theorem claim_C8_witness :
    exceptOk (reschedule_all_events
      [("1", [Event.to_dict ⟨"E", "t", ⟨2031, 1, 1, 10, 0, 0, 0⟩, 7⟩]),
       ("2", [⟨"x", "y", "bad", 3⟩])] ⟨2024, 12, 31, 17, 40, 0, 0⟩) = false ∧
    reschedule_all_events [("1", [Event.to_dict ⟨"E", "t", ⟨2031, 1, 1, 10, 0, 0, 0⟩, 7⟩])]
        ⟨2024, 12, 31, 17, 40, 0, 0⟩ =
      .ok (rescheduleStore [("1", [⟨"E", "t", ⟨2031, 1, 1, 10, 0, 0, 0⟩, 7⟩])]
        ⟨2024, 12, 31, 17, 40, 0, 0⟩ []) ∧
    rescheduleStore [("abc", [⟨"E", "t", ⟨2031, 1, 1, 10, 0, 0, 0⟩, 7⟩])]
        ⟨2024, 12, 31, 17, 40, 0, 0⟩ [] =
      rescheduleStore [] ⟨2024, 12, 31, 17, 40, 0, 0⟩ [] :=
  ⟨claim_C8_amended.1 _ _ (by decide),
   claim_C8_amended.2.1 _ _ _ (by decide),
   claim_C8_amended.2.2 "abc" _ [] _ [] (by decide)⟩

/-- Looking up the key just written returns the written value. -/
theorem alistGetD_set_self (s : Store) (k : String) (v : List Event) :
    alistGetD (alistSet s k v) k [] = v := by
  induction s with
  | nil => simp [alistSet, alistGetD]
  | cons p rest ih =>
    obtain ⟨k', v'⟩ := p
    by_cases h : k' = k
    · subst h
      simp [alistSet, alistGetD]
    · simp [alistSet, alistGetD, h, ih]

/-- Writing one key leaves every other key's value unchanged. -/
theorem alistGetD_set_other (s : Store) (k k2 : String) (v : List Event)
    (d : List Event) (h : k2 ≠ k) :
    alistGetD (alistSet s k v) k2 d = alistGetD s k2 d := by
  induction s with
  | nil =>
    simp only [alistSet, alistGetD]
    rw [if_neg (fun hc : k = k2 => h hc.symm)]
  | cons p rest ih =>
    obtain ⟨k', v'⟩ := p
    by_cases hk : k' = k
    · subst hk
      simp only [alistSet, if_pos rfl, alistGetD]
      rw [if_neg (fun hc : k' = k2 => h hc.symm), if_neg (fun hc : k' = k2 => h hc.symm)]
    · simp only [alistSet, if_neg hk, alistGetD]
      by_cases hk2 : k' = k2
      · rw [if_pos hk2, if_pos hk2]
      · rw [if_neg hk2, if_neg hk2, ih]

/-- Every entry of the updated association list is the new pair or an old
entry. -/
theorem mem_alistSet (s : Store) (k : String) (v : List Event) :
    ∀ p ∈ alistSet s k v, p = (k, v) ∨ p ∈ s := by
  induction s with
  | nil => intro p hp; simp [alistSet] at hp; simp [hp]
  | cons q rest ih =>
    intro p hp
    obtain ⟨k', v'⟩ := q
    by_cases h : k' = k
    · subst h
      simp only [alistSet, if_pos rfl] at hp
      rcases List.mem_cons.mp hp with rfl | hp'
      · exact Or.inl rfl
      · exact Or.inr (List.mem_cons_of_mem _ hp')
    · simp only [alistSet, if_neg h] at hp
      rcases List.mem_cons.mp hp with rfl | hp'
      · exact Or.inr (List.mem_cons_self _ _)
      · rcases ih p hp' with h1 | h2
        · exact Or.inl h1
        · exact Or.inr (List.mem_cons_of_mem _ h2)

/-- Claim C9: a valid creation persists exactly one new Event — the
owner's stored sequence becomes a sorted permutation of the old sequence
plus the event (so it grows by one and contains the event), every other
owner's entry is untouched, `list_events` subsequently returns the
owner's events sorted by `when` and containing the new event, and a store
whose lists were all sorted stays entirely sorted after the write. -/
theorem claim_C9 (store : Store) (u : Int) (e : Event) :
    ((alistGetD (add_event store u e) (toString u) []).Perm
        (alistGetD store (toString u) [] ++ [e]) ∧
      (alistGetD (add_event store u e) (toString u) []).length =
        (alistGetD store (toString u) []).length + 1 ∧
      e ∈ alistGetD (add_event store u e) (toString u) [] ∧
      (∀ k2, k2 ≠ toString u → ∀ d,
        alistGetD (add_event store u e) k2 d = alistGetD store k2 d) ∧
      e ∈ list_events (add_event store u e) u ∧
      List.Sorted eventLe (list_events (add_event store u e) u)) ∧
    ((∀ p ∈ store, List.Sorted eventLe p.2) →
      ∀ p ∈ add_event store u e, List.Sorted eventLe p.2) := by
  have hself : alistGetD (add_event store u e) (toString u) [] =
      List.insertionSort eventLe (alistGetD store (toString u) [] ++ [e]) := by
    unfold add_event
    exact alistGetD_set_self store (toString u) _
  have hperm : (alistGetD (add_event store u e) (toString u) []).Perm
      (alistGetD store (toString u) [] ++ [e]) := by
    rw [hself]
    exact List.perm_insertionSort eventLe _
  constructor
  · refine ⟨hperm, ?_, ?_, ?_, ?_, ?_⟩
    · rw [hperm.length_eq, List.length_append]
      rfl
    · exact hperm.mem_iff.mpr (List.mem_append_right _ (List.mem_singleton.mpr rfl))
    · intro k2 hk2 d
      unfold add_event
      exact alistGetD_set_other store (toString u) k2 _ d hk2
    · unfold list_events
      rw [List.mem_insertionSort, hself, List.mem_insertionSort]
      exact List.mem_append_right _ (List.mem_singleton.mpr rfl)
    · exact List.sorted_insertionSort eventLe _
  · intro hs p hp
    unfold add_event at hp
    rcases mem_alistSet store (toString u) _ p hp with rfl | hold
    · exact List.sorted_insertionSort eventLe _
    · exact hs p hold

/-- Witness for C9's sortedness-preservation clause. -/
theorem claim_C9_witness :
    (∀ p ∈ ([("1", [⟨"a", "s", ⟨2024, 6, 1, 9, 0, 0, 0⟩, 3⟩])] : Store),
      List.Sorted eventLe p.2) ∧
    (∀ p ∈ add_event [("1", [⟨"a", "s", ⟨2024, 6, 1, 9, 0, 0, 0⟩, 3⟩])] 1
        ⟨"b", "r", ⟨2024, 5, 1, 9, 0, 0, 0⟩, 4⟩,
      List.Sorted eventLe p.2) :=
  ⟨by decide,
   (claim_C9 [("1", [⟨"a", "s", ⟨2024, 6, 1, 9, 0, 0, 0⟩, 3⟩])] 1
     ⟨"b", "r", ⟨2024, 5, 1, 9, 0, 0, 0⟩, 4⟩).2 (by decide)⟩
